import Mathlib

/-
Verification development for the Planetarium dependency-graph engine.

The definitions below are shallow embeddings of the TypeScript sources:
  * `src/graph/Node.ts`   (FileNode)
  * `src/graph/Graph.ts`  (ProjectGraph: addNode / addEdge / removeNode /
                           clear / getDependencies / calculateCumulativeLOC /
                           getGraphData)
  * `src/panels/PlanetariumPanel.ts` (the `_buildGraph` orchestration)
  * `src/services/SymbolService.ts`  (getFileGitStatus,
                           getFilesWithDependenciesAndGitStatus,
                           resolveImportPath, getImportRelationships)

JavaScript strings are modelled as Lean `String` (a wrapper around
`List Char`); JS `Map` keyed by path is modelled as an insertion-ordered
list (JS `Map.set` on an existing key updates the entry in place, which at
unique keys coincides with the pointwise update used here); JS `Set`
iteration order is insertion order, modelled as a list.
-/

namespace Planetarium

/-- JS `[...new Set(a.concat(b))]` spread: deduplicate keeping the first
occurrence of each element.  Helper with an accumulator of already-seen
elements. -/
def dedupAux : List String → List String → List String
  | [], _ => []
  | x :: xs, seen =>
    if seen.contains x then dedupAux xs seen else x :: dedupAux xs (x :: seen)

/-- JS `[...new Set(l)]`. -/
def jsSetDedup (l : List String) : List String := dedupAux l []

/-- JS `String.prototype.startsWith`. -/
def strStartsWith (s pre : String) : Bool := pre.data.isPrefixOf s.data

/-- JS `String.prototype.endsWith`. -/
def strEndsWith (s suf : String) : Bool := suf.data.isSuffixOf s.data

/-- JS `String.prototype.toLowerCase` (ASCII-adequate model). -/
def toLowerStr (s : String) : String := ⟨s.data.map Char.toLower⟩

/-- JS `String.prototype.substring(n)` / specifier tail after a prefix:
drop the first `n` (UTF-16 ≈ char) positions. -/
def dropChars (n : Nat) (s : String) : String := ⟨s.data.drop n⟩

/-- Split a character list at every occurrence of the separator `c`,
mirroring JS `String.prototype.split` (never returns an empty list;
`""` splits to `[""]`, a trailing separator yields a trailing `""`). -/
def splitCharOn (c : Char) : List Char → List (List Char)
  | [] => [[]]
  | x :: xs =>
    if x = c then [] :: splitCharOn c xs
    else
      match splitCharOn c xs with
      | [] => [[x]]
      | g :: gs => (x :: g) :: gs

/-- JS `path.split(sep)` producing strings. -/
def splitStr (c : Char) (s : String) : List String :=
  (splitCharOn c s.data).map String.mk

/-- JS `Array.prototype.join(sep)` for a single-character separator. -/
def joinSlash : List String → String
  | [] => ""
  | [x] => x
  | x :: y :: xs => x ++ "/" ++ joinSlash (y :: xs)

/-- JS `arr.slice(0, e)` where `e` may be negative (counts from the end,
clamped at 0). -/
def jsSliceTo (l : List String) (e : Int) : List String :=
  let len : Int := l.length
  let stop : Int := if e < 0 then max (len + e) 0 else min e len
  l.take stop.toNat

/-- JS whitespace trim of both ends of a character list
(`String.prototype.trim`, restricted to the ASCII whitespace that the
sources can produce). -/
def isJsWs (c : Char) : Bool :=
  c = ' ' ∨ c = '\t' ∨ c = '\n' ∨ c = '\r' ∨ c = Char.ofNat 11 ∨ c = Char.ofNat 12

def trimChars (l : List Char) : List Char :=
  ((l.dropWhile isJsWs).reverse.dropWhile isJsWs).reverse

def trimStr (s : String) : String := ⟨trimChars s.data⟩

/-- JS `s.split(',').map(x => x.trim())`, as used for named-import lists. -/
def splitComma (s : String) : List String :=
  (splitCharOn ',' s.data).map (fun g => String.mk (trimChars g))

/-! ## Data model (`src/graph/Node.ts`, `src/graph/Graph.ts`) -/

/-- An exported symbol of a file: `{name, kind}`. -/
structure Symbol where
  name : String
  kind : String
deriving DecidableEq

/-- Git change status of a file node. -/
inductive GitStat where
  | added
  | removed
  | modified
  | unchanged
deriving DecidableEq

/-- Git change status of an edge (edges have no `modified` state). -/
inductive EStat where
  | added
  | removed
  | unchanged
deriving DecidableEq

/-- `FileNode` of `Node.ts`.  `filename`, `width`, `height` and the file
icon are recomputed from `path`/`symbols` on demand (see `displayData`);
`fx`/`fy` are only ever written by the webview layer and are omitted. -/
structure FileNode where
  path : String
  symbols : List Symbol
  linesOfCode : Nat
  gitStatus : GitStat
  posX : Int
  posY : Int
deriving DecidableEq

/-- The `FileNode` constructor: position starts at the origin. -/
def FileNode.make (path : String) (symbols : List Symbol) (linesOfCode : Nat)
    (gitStatus : GitStat) : FileNode :=
  ⟨path, symbols, linesOfCode, gitStatus, 0, 0⟩

/-- `FileNode.updateSymbols` with all three arguments supplied (as in the
only call site, `ProjectGraph.addNode`): overwrite symbols, LOC and
status, keep the position. -/
def updateSymbols (n : FileNode) (symbols : List Symbol) (linesOfCode : Nat)
    (gitStatus : GitStat) : FileNode :=
  { n with symbols := symbols, linesOfCode := linesOfCode, gitStatus := gitStatus }

/-- `Edge` of `Graph.ts`. -/
structure Edge where
  source : String
  target : String
  symbols : List String
  gitStatus : EStat
deriving DecidableEq

/-- `ProjectGraph` state: insertion-ordered node map and edge list. -/
structure ProjectGraph where
  nodes : List FileNode
  edges : List Edge
deriving DecidableEq

def emptyGraph : ProjectGraph := ⟨[], []⟩

/-- `ProjectGraph.addNode`: insert-or-overwrite by path key. -/
def addNode (g : ProjectGraph) (path : String) (symbols : List Symbol)
    (linesOfCode : Nat) (gitStatus : GitStat) : ProjectGraph :=
  if g.nodes.any (fun n => n.path == path) then
    { g with nodes := g.nodes.map (fun n =>
        if n.path == path then updateSymbols n symbols linesOfCode gitStatus else n) }
  else
    { g with nodes := g.nodes ++ [FileNode.make path symbols linesOfCode gitStatus] }

/-- The merge performed on an existing edge:
`existingEdge.symbols = [...new Set([...existingEdge.symbols, ...symbols])]`
and the status is overwritten only when the incoming status is not
`unchanged`. -/
def mergeEdge (e : Edge) (symbols : List String) (gitStatus : EStat) : Edge :=
  { e with
      symbols := jsSetDedup (e.symbols ++ symbols),
      gitStatus := if gitStatus = EStat.unchanged then e.gitStatus else gitStatus }

/-- `this.edges.find(...)` followed by in-place mutation: update the first
edge with the given `(source, target)` key, leave the rest untouched. -/
def updateFirstEdge (source target : String) (symbols : List String)
    (gitStatus : EStat) : List Edge → List Edge
  | [] => []
  | e :: rest =>
    if e.source == source && e.target == target then
      mergeEdge e symbols gitStatus :: rest
    else
      e :: updateFirstEdge source target symbols gitStatus rest

/-- `ProjectGraph.addEdge`: insert-or-merge by `(source, target)` key. -/
def addEdge (g : ProjectGraph) (source target : String) (symbols : List String)
    (gitStatus : EStat) : ProjectGraph :=
  if g.edges.any (fun e => e.source == source && e.target == target) then
    { g with edges := updateFirstEdge source target symbols gitStatus g.edges }
  else
    { g with edges := g.edges ++ [⟨source, target, symbols, gitStatus⟩] }

/-- `ProjectGraph.removeNode`: delete the node and every edge touching it;
report whether a node existed. -/
def removeNode (g : ProjectGraph) (path : String) : ProjectGraph × Bool :=
  if g.nodes.any (fun n => n.path == path) then
    ({ nodes := g.nodes.filter (fun n => !(n.path == path)),
       edges := g.edges.filter (fun e => !(e.source == path) && !(e.target == path)) },
     true)
  else
    (g, false)

/-- `ProjectGraph.clear`. -/
def clearGraph (_g : ProjectGraph) : ProjectGraph := ⟨[], []⟩

/-- `ProjectGraph.getDependencies`: direct outgoing neighbours, dropping
edges whose target has no node. -/
def getDependencies (g : ProjectGraph) (nodePath : String) : List FileNode :=
  (g.edges.filter (fun e => e.source == nodePath)).filterMap
    (fun e => g.nodes.find? (fun n => n.path == e.target))

/-- `ProjectGraph.calculateCumulativeLOC`: own LOC plus the LOC of the
direct dependencies only (no recursion). -/
def calculateCumulativeLOC (g : ProjectGraph) (nodePath : String) : Nat :=
  match g.nodes.find? (fun n => n.path == nodePath) with
  | none => 0
  | some node =>
      node.linesOfCode + ((getDependencies g nodePath).map (·.linesOfCode)).sum

/-! ## Display data (`FileNode.getDisplayData`, `ProjectGraph.getGraphData`) -/

/-- `path.split('/').pop() || path`. -/
def filenameOf (path : String) : String :=
  let seg := ((splitStr '/' path).getLast?).getD ("")
  if seg = "" then path else seg

/-- `path.split(Char.ofNat 46).pop()?.toLowerCase() || empty`. -/
def extensionOf (path : String) : String :=
  toLowerStr (((splitStr '.' path).getLast?).getD (""))

/-- The file-type icon table of `Node.ts`. -/
def iconMap : List (String × String) :=
  [("ts", "📘"), ("tsx", "📘"), ("js", "📒"), ("jsx", "📒"),
   ("mts", "📘"), ("mjs", "📒"), ("cts", "📘"), ("cjs", "📒"),
   ("html", "🌐"), ("htm", "🌐"),
   ("css", "🎨"), ("scss", "🎨"), ("sass", "🎨"), ("less", "🎨"),
   ("py", "🐍"), ("pyi", "🐍"), ("pyx", "🐍"),
   ("java", "☕"), ("kt", "🟣"), ("kts", "🟣"), ("scala", "🔴"), ("sc", "🔴"),
   ("c", "⚙️"), ("cpp", "⚙️"), ("cc", "⚙️"), ("cxx", "⚙️"),
   ("h", "📋"), ("hpp", "📋"), ("hh", "📋"), ("hxx", "📋"),
   ("cs", "🔷"), ("csx", "🔷"),
   ("go", "🐹"),
   ("rs", "🦀"),
   ("php", "🐘"), ("phtml", "🐘"),
   ("rb", "💎"), ("rbw", "💎"),
   ("swift", "🧡"),
   ("dart", "🎯"),
   ("lua", "🌙"),
   ("sh", "🐚"), ("bash", "🐚"), ("zsh", "🐚"), ("fish", "🐚"),
   ("hs", "👻"), ("lhs", "👻"),
   ("ml", "🐪"), ("mli", "🐪"),
   ("fs", "🔵"), ("fsi", "🔵"), ("fsx", "🔵"), ("fsscript", "🔵"),
   ("clj", "🟢"), ("cljs", "🟢"), ("cljc", "🟢"), ("edn", "🟢"),
   ("elm", "🌳"),
   ("ex", "💜"), ("exs", "💜"), ("erl", "💜"), ("hrl", "💜"),
   ("json", "📋"), ("jsonc", "📋"),
   ("yaml", "📄"), ("yml", "📄"),
   ("xml", "📄"),
   ("toml", "📄"),
   ("md", "📝"), ("mdx", "📝"),
   ("tex", "📰"),
   ("sql", "🗃️"), ("psql", "🗃️"), ("mysql", "🗃️"),
   ("r", "📊"),
   ("jl", "🔬")]

/-- `FileNode.getFileIcon`.  (The source table also lists an `'R'` key,
which is unreachable because the extension is lower-cased first and the
`'r'` key wins.) -/
def getFileIcon (path : String) : String :=
  match iconMap.find? (fun p => p.fst == extensionOf path) with
  | some p => p.snd
  | none => "📄"

/-- `FileNode.calculateWidth`. -/
def calculateWidth (path : String) : Nat :=
  max 120 ((filenameOf path).data.length * 8 + 20)

/-- `FileNode.calculateHeight` (40 + 30, symbols are not shown). -/
def calculateHeight : Nat := 70

/-- One entry of the snapshot node list: `FileNode.getDisplayData`
extended with `cumulativeLOC` by `getGraphData`. -/
structure NodeDisplay where
  id : String
  path : String
  filename : String
  linesOfCode : Nat
  gitStatus : GitStat
  fileIcon : String
  width : Nat
  height : Nat
  x : Int
  y : Int
  cumulativeLOC : Nat
deriving DecidableEq

def displayData (n : FileNode) (cumulativeLOC : Nat) : NodeDisplay :=
  { id := n.path, path := n.path, filename := filenameOf n.path,
    linesOfCode := n.linesOfCode, gitStatus := n.gitStatus,
    fileIcon := getFileIcon n.path, width := calculateWidth n.path,
    height := calculateHeight, x := n.posX, y := n.posY,
    cumulativeLOC := cumulativeLOC }

/-- The snapshot consumed by the rendering layer. -/
structure GraphData where
  nodes : List NodeDisplay
  edges : List Edge
deriving DecidableEq

/-- `ProjectGraph.getGraphData`. -/
def getGraphData (g : ProjectGraph) : GraphData :=
  { nodes := g.nodes.map (fun n => displayData n (calculateCumulativeLOC g n.path)),
    edges := g.edges }

/-! ## Builder (`PlanetariumPanel._buildGraph`) and the change classifier
(`SymbolService.getFileGitStatus`, `getFilesWithDependenciesAndGitStatus`) -/

/-- One extracted import relationship `{importedFrom, symbols}`. -/
structure Dependency where
  importedFrom : String
  symbols : List String
deriving DecidableEq

/-- One entry of `getFilesWithDependenciesAndGitStatus()`. -/
structure FileData where
  path : String
  symbols : List Symbol
  dependencies : List Dependency
  linesOfCode : Nat
  gitStatus : GitStat
deriving DecidableEq

/-- The edge-status rule of `_buildGraph`: a brand-new source file makes
every one of its edges `added`; a `modified` source conservatively yields
`unchanged`; otherwise the initialiser `unchanged` stands. -/
def edgeStatusFor : GitStat → EStat
  | GitStat.added => EStat.added
  | GitStat.modified => EStat.unchanged
  | GitStat.removed => EStat.unchanged
  | GitStat.unchanged => EStat.unchanged

/-- First pass of `_buildGraph`: add one node per file. -/
def addNodeStep (acc : ProjectGraph) (fd : FileData) : ProjectGraph :=
  addNode acc fd.path fd.symbols fd.linesOfCode fd.gitStatus

/-- One edge insertion of the second pass. -/
def addDepStep (path : String) (st : EStat) (acc : ProjectGraph) (d : Dependency) :
    ProjectGraph :=
  addEdge acc path d.importedFrom d.symbols st

/-- Second pass of `_buildGraph`: add one edge per extracted dependency
of one file, with the edge-status rule applied to the source file. -/
def addEdgesStep (acc : ProjectGraph) (fd : FileData) : ProjectGraph :=
  fd.dependencies.foldl (addDepStep fd.path (edgeStatusFor fd.gitStatus)) acc

/-- `PlanetariumPanel._buildGraph`: clear, add every file as a node, then
add one edge per extracted dependency with the edge-status rule. -/
def buildGraph (g : ProjectGraph) (files : List FileData) : ProjectGraph :=
  files.foldl addEdgesStep (files.foldl addNodeStep (clearGraph g))

/-- The three change sets returned by `getGitChanges` (JS `Set`s, modelled
with their insertion order). -/
structure GitChanges where
  addedFiles : List String
  removedFiles : List String
  modifiedFiles : List String

/-- A workspace file before git-status classification (one entry of
`getFilesWithDependencies()`). -/
structure FileRaw where
  path : String
  symbols : List Symbol
  dependencies : List Dependency
  linesOfCode : Nat

/-- `SymbolService.getFileGitStatus`: added, then removed, then modified,
first match wins. -/
def getFileGitStatus (filePath : String) (gitChanges : GitChanges) : GitStat :=
  if gitChanges.addedFiles.contains filePath then GitStat.added
  else if gitChanges.removedFiles.contains filePath then GitStat.removed
  else if gitChanges.modifiedFiles.contains filePath then GitStat.modified
  else GitStat.unchanged

/-- The per-removed-path synthesis step: push an entry with empty symbols
and dependencies, zero LOC and `removed` status, unless a file with that
path is already present. -/
def synthStep (acc : List FileData) (removedFile : String) : List FileData :=
  if acc.any (fun f => f.path == removedFile) then acc
  else acc ++ [FileData.mk removedFile [] [] 0 GitStat.removed]

/-- `SymbolService.getFilesWithDependenciesAndGitStatus`: classify every
listed file, then run the synthesis step over the removed set. -/
def getFilesWithDependenciesAndGitStatus (files : List FileRaw)
    (gitChanges : GitChanges) : List FileData :=
  let withStatus := files.map (fun f =>
    FileData.mk f.path f.symbols f.dependencies f.linesOfCode
      (getFileGitStatus f.path gitChanges))
  gitChanges.removedFiles.foldl synthStep withStatus

/-! ## Path resolver (`SymbolService.resolveImportPath`) -/

/-- The fixed extension probe list of `resolveImportPath`. -/
def extensions : List String :=
  [".ts", ".tsx", ".js", ".jsx", ".mts", ".mjs", ".cts", ".cjs",
   ".html", ".htm", ".css", ".scss", ".sass", ".less",
   ".py", ".pyi", ".pyx", ".xml"]

/-- `currentFile.path.substring(0, currentFile.path.lastIndexOf(slash))`:
the containing directory (empty when the path has no slash, matching the
JS `substring(0, -1)` edge case). -/
def dirnameOf (p : String) : String := joinSlash ((splitStr '/' p).dropLast)

/-- The loop counting leading `..` segments (breaks at the first other
segment). -/
def countLeadingParents (parts : List String) : Nat :=
  (parts.takeWhile (fun s => s == "..")).length

/-- The lexical concatenation step of `resolveImportPath`: directory plus
remainder for a `./` specifier; pop `backCount` trailing components (JS
`slice` semantics) and append the rest for a `../` specifier; `none` for
any other specifier (`return null; // Not a relative import`). -/
def resolveRelative (currentFilePath importPath : String) : Option String :=
  let currentDir := dirnameOf currentFilePath
  if strStartsWith importPath ("./") then
    some (currentDir ++ "/" ++ dropChars 2 importPath)
  else if strStartsWith importPath ("../") then
    let parts := splitStr '/' currentDir
    let importParts := splitStr '/' importPath
    let backCount := countLeadingParents importParts
    let baseParts := jsSliceTo parts ((parts.length : Int) - (backCount : Int))
    let remainingImportParts := importParts.drop backCount
    some (joinSlash (baseParts ++ remainingImportParts))
  else
    none

/-- Model of the external editor API `workspace.asRelativePath(Uri.file p)`
for a single-root workspace: a path strictly inside the workspace root is
mapped to its root-relative form; any other path is returned unchanged. -/
def asRelativePath (root p : String) : String :=
  if strStartsWith p (root ++ "/") then dropChars (root ++ "/").data.length p else p

/-- One candidate probe: the candidate is accepted when its
workspace-relative form is nonempty and does not start with `..`
(`if (relativePath && !relativePath.startsWith( .. ))`). -/
def acceptCandidate (root candidate : String) : Option String :=
  let relativePath := asRelativePath root candidate
  if !(relativePath == "") && !(strStartsWith relativePath ("..")) then some relativePath
  else none

/-- `SymbolService.resolveImportPath` (with a workspace folder present):
the three probe tiers of the source, in order — resolved path plus each
extension, then `/index` plus each extension, then the exact resolved
path — first accepted candidate wins. -/
def resolveImportPath (root currentFilePath importPath : String) : Option String :=
  match resolveRelative currentFilePath importPath with
  | none => none
  | some resolvedPath =>
    match (extensions.map (fun ext => resolvedPath ++ ext)).findSome? (acceptCandidate root) with
    | some r => some r
    | none =>
      match (extensions.map (fun ext => resolvedPath ++ "/index" ++ ext)).findSome?
          (acceptCandidate root) with
      | some r => some r
      | none => acceptCandidate root resolvedPath

/-! ## Pattern engine (`SymbolService.getImportRelationships`)

The import extractor of the source is a list of JS regular expressions run
with `exec` in a loop.  The patterns use only literals, character classes,
`* + ?` quantifiers over character classes, and non-nested capture
groups, so they are embedded as item lists interpreted by a small
backtracking matcher with the same leftmost / greedy semantics. -/

/-- A character class: an optionally negated union of single characters
and inclusive ranges. -/
structure CClass where
  neg : Bool
  chars : List Char
  ranges : List (Char × Char)

def CClass.holds (k : CClass) (c : Char) : Bool :=
  let base := k.chars.contains c
    || k.ranges.any (fun r => decide (r.fst ≤ c) && decide (c ≤ r.snd))
  if k.neg then !base else base

/-- Pattern items: literal character, single / starred / plussed /
optional character class, and capture-group delimiters. -/
inductive RItem where
  | lit : Char → RItem
  | one : CClass → RItem
  | star : CClass → RItem
  | plus : CClass → RItem
  | opt : CClass → RItem
  | openG : RItem
  | closeG : RItem

/-- Backtracking matcher, anchored at the start of `s`.  `gstart` is the
input at the opening of the currently open capture group, `racc` the
completed captures in reverse.  Star/option are greedy with backtracking,
as in the JS engine.  `fuel` only bounds recursion depth and is chosen in
`matchHere` far above the depth any of the fixed patterns can reach. -/
def matchItemsF : Nat → List RItem → List Char → Option (List Char) →
    List (List Char) → Option (List Char × List (List Char))
  | 0, _, _, _, _ => none
  | _ + 1, [], s, _, racc => some (s, racc.reverse)
  | fuel + 1, RItem.lit c :: rest, s, gstart, racc =>
    match s with
    | [] => none
    | x :: s' => if x = c then matchItemsF fuel rest s' gstart racc else none
  | fuel + 1, RItem.one k :: rest, s, gstart, racc =>
    match s with
    | [] => none
    | x :: s' => if k.holds x then matchItemsF fuel rest s' gstart racc else none
  | fuel + 1, RItem.opt k :: rest, s, gstart, racc =>
    match s with
    | [] => matchItemsF fuel rest [] gstart racc
    | x :: s' =>
      if k.holds x then
        match matchItemsF fuel rest s' gstart racc with
        | some r => some r
        | none => matchItemsF fuel rest s gstart racc
      else matchItemsF fuel rest s gstart racc
  | fuel + 1, RItem.star k :: rest, s, gstart, racc =>
    match s with
    | [] => matchItemsF fuel rest [] gstart racc
    | x :: s' =>
      if k.holds x then
        match matchItemsF fuel (RItem.star k :: rest) s' gstart racc with
        | some r => some r
        | none => matchItemsF fuel rest s gstart racc
      else matchItemsF fuel rest s gstart racc
  | fuel + 1, RItem.plus k :: rest, s, gstart, racc =>
    matchItemsF fuel (RItem.one k :: RItem.star k :: rest) s gstart racc
  | fuel + 1, RItem.openG :: rest, s, _, racc =>
    matchItemsF fuel rest s (some s) racc
  | fuel + 1, RItem.closeG :: rest, s, gstart, racc =>
    let begun := gstart.getD s
    matchItemsF fuel rest s none ((begun.take (begun.length - s.length)) :: racc)

/-- Attempt an anchored match at the current position. -/
def matchHere (pat : List RItem) (s : List Char) : Option (List Char × List (List Char)) :=
  matchItemsF 1000000 pat s none []

/-- Leftmost match, as `RegExp.exec`: try every position left to right. -/
def findFirstMatch (pat : List RItem) : List Char → Option (List Char × List (List Char))
  | [] => matchHere pat []
  | s@(_ :: rest) =>
    match matchHere pat s with
    | some r => some r
    | none => findFirstMatch pat rest

/-- The `while ((match = pattern.exec(content)) !== null)` loop: capture
lists of successive matches, resuming after each match.  (Every fixed
pattern contains literal items and so always consumes input on a match;
the progress test only guards the recursion.) -/
def execAllF (pat : List RItem) : Nat → List Char → List (List String)
  | 0, _ => []
  | fuel + 1, s =>
    match findFirstMatch pat s with
    | none => []
    | some (rem, caps) =>
      if rem.length < s.length then caps.map String.mk :: execAllF pat fuel rem
      else [caps.map String.mk]

def execAll (pat : List RItem) (s : List Char) : List (List String) :=
  execAllF pat (s.length + 1) s

/-! ## The fixed pattern set of `getImportRelationships` -/

def sqChar : Char := Char.ofNat 39
def bqChar : Char := Char.ofNat 96
def lbrace : Char := Char.ofNat 123
def rbrace : Char := Char.ofNat 125

def wsClass : CClass := ⟨false, [' ', '\t', '\n', '\r', Char.ofNat 11, Char.ofNat 12], []⟩
def identStartClass : CClass := ⟨false, ['_', '$'], [('a', 'z'), ('A', 'Z')]⟩
def identContClass : CClass := ⟨false, ['_', '$'], [('a', 'z'), ('A', 'Z'), ('0', '9')]⟩
def quoteClass : CClass := ⟨false, [sqChar, '"', bqChar], []⟩
def notQuoteClass : CClass := ⟨true, [sqChar, '"', bqChar], []⟩
def notQuoteParenClass : CClass := ⟨true, [sqChar, '"', bqChar, ')'], []⟩
def notRBraceClass : CClass := ⟨true, [rbrace], []⟩
def notGtClass : CClass := ⟨true, ['>'], []⟩

/-- A sequence of literal items. -/
def lits (s : String) : List RItem := s.data.map RItem.lit

/-- A capture group around one plussed class. -/
def grpPlus (k : CClass) : List RItem := [RItem.openG, RItem.plus k, RItem.closeG]

/-- The identifier capture group of the JS patterns. -/
def grpIdent : List RItem :=
  [RItem.openG, RItem.one identStartClass, RItem.star identContClass, RItem.closeG]

/-- A quoted, captured specifier: quote class, captured non-quote run,
quote class. -/
def quotedGroup : List RItem :=
  [RItem.one quoteClass] ++ grpPlus notQuoteClass ++ [RItem.one quoteClass]

def jsNamedImportPat : List RItem :=
  lits ("import") ++ [RItem.star wsClass, RItem.lit lbrace, RItem.star wsClass]
    ++ grpPlus notRBraceClass
    ++ [RItem.star wsClass, RItem.lit rbrace, RItem.star wsClass]
    ++ lits ("from") ++ [RItem.star wsClass] ++ quotedGroup

def jsDefaultImportPat : List RItem :=
  lits ("import") ++ [RItem.plus wsClass] ++ grpIdent ++ [RItem.plus wsClass]
    ++ lits ("from") ++ [RItem.star wsClass] ++ quotedGroup

def jsNamespaceImportPat : List RItem :=
  lits ("import") ++ [RItem.star wsClass, RItem.lit '*', RItem.star wsClass]
    ++ lits ("as") ++ [RItem.plus wsClass] ++ grpIdent ++ [RItem.plus wsClass]
    ++ lits ("from") ++ [RItem.star wsClass] ++ quotedGroup

def jsBareImportPat : List RItem :=
  lits ("import") ++ [RItem.star wsClass] ++ quotedGroup

def jsMixedImportPat : List RItem :=
  lits ("import") ++ [RItem.plus wsClass] ++ grpIdent
    ++ [RItem.star wsClass, RItem.lit ',', RItem.star wsClass, RItem.lit lbrace,
        RItem.star wsClass]
    ++ grpPlus notRBraceClass
    ++ [RItem.star wsClass, RItem.lit rbrace, RItem.star wsClass]
    ++ lits ("from") ++ [RItem.star wsClass] ++ quotedGroup

def jsTypeNamedImportPat : List RItem :=
  lits ("import") ++ [RItem.plus wsClass] ++ lits ("type")
    ++ [RItem.star wsClass, RItem.lit lbrace, RItem.star wsClass]
    ++ grpPlus notRBraceClass
    ++ [RItem.star wsClass, RItem.lit rbrace, RItem.star wsClass]
    ++ lits ("from") ++ [RItem.star wsClass] ++ quotedGroup

def jsTypeDefaultImportPat : List RItem :=
  lits ("import") ++ [RItem.plus wsClass] ++ lits ("type") ++ [RItem.plus wsClass]
    ++ grpIdent ++ [RItem.plus wsClass]
    ++ lits ("from") ++ [RItem.star wsClass] ++ quotedGroup

def jsRequireCallPat : List RItem :=
  lits ("require") ++ [RItem.star wsClass, RItem.lit '(', RItem.star wsClass]
    ++ quotedGroup ++ [RItem.star wsClass, RItem.lit ')']

def jsRequireDestructurePat : List RItem :=
  lits ("const") ++ [RItem.star wsClass, RItem.lit lbrace, RItem.star wsClass]
    ++ grpPlus notRBraceClass
    ++ [RItem.star wsClass, RItem.lit rbrace, RItem.star wsClass, RItem.lit '=',
        RItem.star wsClass]
    ++ lits ("require") ++ [RItem.star wsClass, RItem.lit '(', RItem.star wsClass]
    ++ quotedGroup ++ [RItem.star wsClass, RItem.lit ')']

def jsRequireAssignPat : List RItem :=
  lits ("const") ++ [RItem.plus wsClass] ++ grpIdent
    ++ [RItem.star wsClass, RItem.lit '=', RItem.star wsClass]
    ++ lits ("require") ++ [RItem.star wsClass, RItem.lit '(', RItem.star wsClass]
    ++ quotedGroup ++ [RItem.star wsClass, RItem.lit ')']

def cssImportQuotedPat : List RItem :=
  lits ("@import") ++ [RItem.star wsClass] ++ quotedGroup

def cssImportUrlPat : List RItem :=
  lits ("@import") ++ [RItem.star wsClass] ++ lits ("url")
    ++ [RItem.star wsClass, RItem.lit '(', RItem.star wsClass, RItem.opt quoteClass]
    ++ grpPlus notQuoteParenClass
    ++ [RItem.opt quoteClass, RItem.star wsClass, RItem.lit ')']

def htmlScriptSrcPat : List RItem :=
  lits ("<script") ++ [RItem.plus notGtClass] ++ lits ("src")
    ++ [RItem.star wsClass, RItem.lit '=', RItem.star wsClass] ++ quotedGroup

def htmlLinkHrefPat : List RItem :=
  lits ("<link") ++ [RItem.plus notGtClass] ++ lits ("href")
    ++ [RItem.star wsClass, RItem.lit '=', RItem.star wsClass] ++ quotedGroup

/-- Which branch of the `pattern.source.includes(...)` / `match.length`
dispatch chain fires for each pattern (statically determined per pattern,
since each pattern has a fixed group count and a fixed source text). -/
inductive JsKind where
  | named
  | dflt
  | nspace
  | bare
  | mixed
  | typeNamed
  | typeDflt
  | reqBare
  | reqDestr
  | reqAssign

/-- The per-match extraction of `(importPath, symbols)` from the capture
list `match[1..]`, one case per dispatch branch; `none` is the
unreachable `continue` fallback. -/
def applyKind : JsKind → List String → Option (String × List String)
  | JsKind.named, [syms, path] => some (path, splitComma syms)
  | JsKind.dflt, [sym, path] => some (path, [sym])
  | JsKind.nspace, [sym, path] => some (path, ["* as " ++ sym])
  | JsKind.bare, [path] => some (path, ["*"])
  | JsKind.mixed, [dsym, syms, path] => some (path, dsym :: splitComma syms)
  | JsKind.typeNamed, [syms, path] => some (path, splitComma syms)
  | JsKind.typeDflt, [sym, path] => some (path, [sym])
  | JsKind.reqBare, [path] => some (path, ["*"])
  | JsKind.reqDestr, [syms, path] => some (path, splitComma syms)
  | JsKind.reqAssign, [sym, path] => some (path, [sym])
  | _, _ => none

/-- The `jsImportPatterns` array, in source order, tagged with its
dispatch branch. -/
def jsImportPatterns : List (List RItem × JsKind) :=
  [(jsNamedImportPat, JsKind.named),
   (jsDefaultImportPat, JsKind.dflt),
   (jsNamespaceImportPat, JsKind.nspace),
   (jsBareImportPat, JsKind.bare),
   (jsMixedImportPat, JsKind.mixed),
   (jsTypeNamedImportPat, JsKind.typeNamed),
   (jsTypeDefaultImportPat, JsKind.typeDflt),
   (jsRequireCallPat, JsKind.reqBare),
   (jsRequireDestructurePat, JsKind.reqDestr),
   (jsRequireAssignPat, JsKind.reqAssign)]

/-- Lines 297-306 (and the analogous stylesheet/markup checks): keep only
lexically relative specifiers, silently drop specifiers that fail to
resolve. -/
def keepRelative (root currentFilePath : String) (m : String × List String) :
    Option Dependency :=
  if strStartsWith m.fst ("./") || strStartsWith m.fst ("../") then
    (resolveImportPath root currentFilePath m.fst).map (fun rp => Dependency.mk rp m.snd)
  else
    none

/-- All raw `(importPath, symbols)` matches of the script-family pattern
set, in pattern order then text order. -/
def jsRawImports (content : List Char) : List (String × List String) :=
  jsImportPatterns.flatMap (fun pk => (execAll pk.fst content).filterMap (applyKind pk.snd))

/-- Raw matches of the stylesheet patterns (always the sentinel `*`). -/
def cssRawImports (content : List Char) : List (String × List String) :=
  [cssImportQuotedPat, cssImportUrlPat].flatMap (fun pat =>
    (execAll pat content).filterMap (fun caps =>
      match caps with
      | [path] => some (path, ["*"])
      | _ => none))

/-- Raw matches of the markup patterns (always the sentinel `*`). -/
def htmlRawImports (content : List Char) : List (String × List String) :=
  [htmlScriptSrcPat, htmlLinkHrefPat].flatMap (fun pat =>
    (execAll pat content).filterMap (fun caps =>
      match caps with
      | [path] => some (path, ["*"])
      | _ => none))

def scriptFileSuffixes : List String :=
  [".ts", ".tsx", ".js", ".jsx", ".mts", ".mjs", ".cts", ".cjs"]

def styleFileSuffixes : List String := [".css", ".scss", ".sass", ".less"]

def markupFileSuffixes : List String := [".html", ".htm"]

/-- `SymbolService.getImportRelationships`: dispatch on the lower-cased
file name suffix, extract raw matches per pattern set, keep relative
specifiers that resolve. -/
def getImportRelationships (root currentFilePath : String) (content : String) :
    List Dependency :=
  let fileName := toLowerStr currentFilePath
  let js := if scriptFileSuffixes.any (fun e => strEndsWith fileName e) then
      (jsRawImports content.data).filterMap (keepRelative root currentFilePath)
    else []
  let css := if styleFileSuffixes.any (fun e => strEndsWith fileName e) then
      (cssRawImports content.data).filterMap (keepRelative root currentFilePath)
    else []
  let html := if markupFileSuffixes.any (fun e => strEndsWith fileName e) then
      (htmlRawImports content.data).filterMap (keepRelative root currentFilePath)
    else []
  js ++ css ++ html

/-! ## Operation sequences over the graph (for the edge-key invariant) -/

/-- The public mutating operations of `ProjectGraph`. -/
inductive GOp where
  | addNode (path : String) (symbols : List Symbol) (linesOfCode : Nat) (gitStatus : GitStat)
  | addEdge (source target : String) (symbols : List String) (gitStatus : EStat)
  | removeNode (path : String)
  | clear

def applyOp (g : ProjectGraph) : GOp → ProjectGraph
  | GOp.addNode p sy loc st => addNode g p sy loc st
  | GOp.addEdge s t sy st => addEdge g s t sy st
  | GOp.removeNode p => (removeNode g p).fst
  | GOp.clear => clearGraph g

def applyOps (g : ProjectGraph) (ops : List GOp) : ProjectGraph := ops.foldl applyOp g

/-- At most one edge per ordered `(source, target)` pair. -/
def EdgeKeysNodup (g : ProjectGraph) : Prop :=
  (g.edges.map (fun e => (e.source, e.target))).Nodup

/-! ## Concrete contents for the extraction examples -/

/-- A one-character string holding the single-quote character. -/
def sqs : String := ⟨[sqChar]⟩

def exampleContentBare : String := "import " ++ sqs ++ "./styles.css" ++ sqs ++ ";"

def exampleContentNamed : String := "import \x7b A, B \x7d from " ++ sqs ++ "../x" ++ sqs

def exampleContentMixed : String := "import Foo, \x7b Bar \x7d from " ++ sqs ++ "./y" ++ sqs

/-! ## Concrete inputs used by examples and witnesses -/

/-- A, 50 LOC, with direct edges to B (30 LOC) and C (20 LOC). -/
def exampleGraphABC : ProjectGraph :=
  addEdge
    (addEdge
      (addNode (addNode (addNode emptyGraph ("A") [] 50 GitStat.unchanged)
        ("B") [] 30 GitStat.unchanged) ("C") [] 20 GitStat.unchanged)
      ("A") ("B") ([]) EStat.unchanged)
    ("A") ("C") ([]) EStat.unchanged

/-- A single node with a dangling edge to a missing target. -/
def exampleGraphDangling : ProjectGraph :=
  addEdge (addNode emptyGraph ("A") [] 50 GitStat.unchanged) ("A") ("D") ([]) EStat.unchanged

/-- A two-file build input: an added file and a modified file, each
importing the other. -/
def exampleBuildFiles : List FileData :=
  [FileData.mk ("a.ts") [] [Dependency.mk ("b.ts") (["x"])] 10 GitStat.added,
   FileData.mk ("b.ts") [] [Dependency.mk ("a.ts") (["y"])] 5 GitStat.modified]

/-- A one-file listing, with a removed path absent from it. -/
def exampleRawFiles : List FileRaw := [FileRaw.mk ("a.ts") [] [] 3]

def exampleGitChanges : GitChanges := ⟨[], ["old.ts"], []⟩

/-! ## Generic helper lemmas -/

theorem filter_nil_iff_any_false {α : Type} (p : α → Bool) (l : List α) :
    l.filter p = [] ↔ l.any p = false := by
  induction l with
  | nil => simp
  | cons x xs ih => by_cases h : p x <;> simp [List.filter_cons, List.any_cons, h, ih]

theorem foldl_pres {α β : Type} (P : β → Prop) (f : β → α → β) :
    ∀ (l : List α), (∀ b a, a ∈ l → P b → P (f b a)) → ∀ b, P b → P (l.foldl f b)
  | [], _, _, hb => hb
  | a :: l, h, b, hb =>
    foldl_pres P f l (fun b' a' ha' => h b' a' (List.mem_cons_of_mem _ ha'))
      (f b a) (h b a (List.mem_cons_self _ _) hb)

theorem findSome?_append_or {α β : Type} (f : α → Option β) :
    ∀ (l₁ l₂ : List α), (l₁ ++ l₂).findSome? f
      = match l₁.findSome? f with
        | some b => some b
        | none => l₂.findSome? f
  | [], l₂ => by simp [List.findSome?_nil]
  | a :: l₁, l₂ => by
    simp only [List.cons_append, List.findSome?_cons]
    cases f a with
    | none => exact findSome?_append_or f l₁ l₂
    | some b => rfl

theorem dedupAux_idem (l : List String) :
    ∀ seen, dedupAux (dedupAux l seen) seen = dedupAux l seen := by
  induction l with
  | nil => intro seen; rfl
  | cons x xs ih =>
    intro seen
    by_cases h : x ∈ seen <;> simp [dedupAux, h, ih]

theorem jsSetDedup_idem (l : List String) : jsSetDedup (jsSetDedup l) = jsSetDedup l :=
  dedupAux_idem l []

theorem splitCharOn_ne_nil (c : Char) : ∀ l : List Char, splitCharOn c l ≠ [] := by
  intro l
  induction l with
  | nil => simp [splitCharOn]
  | cons x xs ih =>
    by_cases h : x = c
    · simp [splitCharOn, h]
    · simp only [splitCharOn, h, if_false]
      rcases hs : splitCharOn c xs with _ | ⟨g, gs⟩ <;> simp

theorem splitComma_ne_nil (s : String) : splitComma s ≠ [] := by
  simp only [splitComma, ne_eq, List.map_eq_nil_iff]
  exact splitCharOn_ne_nil ',' s.data

/-! ## Lemmas about the edge operations -/

theorem mergeEdge_source (e : Edge) (sy : List String) (st : EStat) :
    (mergeEdge e sy st).source = e.source := rfl

theorem mergeEdge_target (e : Edge) (sy : List String) (st : EStat) :
    (mergeEdge e sy st).target = e.target := rfl

theorem addEdge_nodes (g : ProjectGraph) (s t : String) (sy : List String) (st : EStat) :
    (addEdge g s t sy st).nodes = g.nodes := by
  unfold addEdge; split <;> rfl

theorem addNode_edges (g : ProjectGraph) (p : String) (sy : List Symbol) (loc : Nat)
    (st : GitStat) : (addNode g p sy loc st).edges = g.edges := by
  unfold addNode; split <;> rfl

theorem updateFirstEdge_filter_key (s t : String) (sy : List String) (st : EStat) :
    ∀ (l : List Edge) (e₀ : Edge),
      l.filter (fun e => e.source == s && e.target == t) = [e₀] →
      (updateFirstEdge s t sy st l).filter (fun e => e.source == s && e.target == t)
        = [mergeEdge e₀ sy st] := by
  intro l
  induction l with
  | nil => intro e₀ h; simp at h
  | cons e rest ih =>
    intro e₀ h
    by_cases hk : (e.source == s && e.target == t) = true
    · simp only [List.filter_cons, hk, if_true] at h
      obtain ⟨rfl, h2⟩ := List.cons_eq_cons.mp h
      simp only [updateFirstEdge, hk, if_true]
      simp [List.filter_cons, mergeEdge_source, mergeEdge_target, hk, h2]
    · simp only [List.filter_cons, hk, if_false, Bool.false_eq_true] at h
      simp only [updateFirstEdge, hk, if_false, Bool.false_eq_true]
      simp only [List.filter_cons, hk, if_false, Bool.false_eq_true]
      exact ih e₀ h

theorem updateFirstEdge_filter_src (s t p : String) (sy : List String) (st : EStat)
    (hne : s ≠ p) :
    ∀ l : List Edge,
      (updateFirstEdge s t sy st l).filter (fun e => e.source == p)
        = l.filter (fun e => e.source == p) := by
  intro l
  induction l with
  | nil => rfl
  | cons e rest ih =>
    by_cases hk : (e.source == s && e.target == t) = true
    · have hs : e.source = s := by
        have h12 := hk
        simp only [Bool.and_eq_true, beq_iff_eq] at h12
        exact h12.1
      have hp : (e.source == p) = false := by
        rw [hs]; exact beq_eq_false_iff_ne.mpr hne
      simp only [updateFirstEdge, hk, if_true]
      simp [List.filter_cons, mergeEdge_source, hp]
    · simp only [updateFirstEdge, hk, if_false, Bool.false_eq_true]
      simp [List.filter_cons, ih]

theorem updateFirstEdge_map_key (s t : String) (sy : List String) (st : EStat) :
    ∀ l : List Edge,
      (updateFirstEdge s t sy st l).map (fun e => (e.source, e.target))
        = l.map (fun e => (e.source, e.target)) := by
  intro l
  induction l with
  | nil => rfl
  | cons e rest ih =>
    by_cases hk : (e.source == s && e.target == t) = true <;>
      simp [updateFirstEdge, hk, List.map_cons, ih, mergeEdge]

theorem mem_updateFirstEdge (s t : String) (sy : List String) (st : EStat) :
    ∀ (l : List Edge) (x : Edge), x ∈ updateFirstEdge s t sy st l →
      x ∈ l ∨ ∃ e₀, e₀ ∈ l ∧ (e₀.source == s && e₀.target == t) = true
        ∧ x = mergeEdge e₀ sy st := by
  intro l
  induction l with
  | nil => intro x hx; simp [updateFirstEdge] at hx
  | cons e rest ih =>
    intro x hx
    by_cases hk : (e.source == s && e.target == t) = true
    · simp only [updateFirstEdge, hk, if_true] at hx
      rcases List.mem_cons.mp hx with rfl | hx'
      · exact Or.inr ⟨e, List.mem_cons_self _ _, hk, rfl⟩
      · exact Or.inl (List.mem_cons_of_mem _ hx')
    · simp only [updateFirstEdge, hk, if_false, Bool.false_eq_true] at hx
      rcases List.mem_cons.mp hx with rfl | hx'
      · exact Or.inl (List.mem_cons_self _ _)
      · rcases ih x hx' with h | ⟨e₀, he₀, hke, hxe⟩
        · exact Or.inl (List.mem_cons_of_mem _ h)
        · exact Or.inr ⟨e₀, List.mem_cons_of_mem _ he₀, hke, hxe⟩

theorem addEdge_existing_filter (g : ProjectGraph) (s t : String) (sy : List String)
    (st : EStat) (e₀ : Edge)
    (h : g.edges.filter (fun e => e.source == s && e.target == t) = [e₀]) :
    (addEdge g s t sy st).edges.filter (fun e => e.source == s && e.target == t)
      = [mergeEdge e₀ sy st] := by
  have hany : g.edges.any (fun e => e.source == s && e.target == t) = true := by
    cases hc : g.edges.any (fun e => e.source == s && e.target == t) with
    | true => rfl
    | false =>
      rw [(filter_nil_iff_any_false _ _).mpr hc] at h
      cases h
  simp only [addEdge, hany, if_true]
  exact updateFirstEdge_filter_key s t sy st g.edges e₀ h

theorem addEdge_new_filter (g : ProjectGraph) (s t : String) (sy : List String)
    (st : EStat)
    (h : g.edges.filter (fun e => e.source == s && e.target == t) = []) :
    (addEdge g s t sy st).edges.filter (fun e => e.source == s && e.target == t)
      = [Edge.mk s t sy st] := by
  have hany := (filter_nil_iff_any_false _ _).mp h
  simp only [addEdge, hany, if_false, Bool.false_eq_true]
  rw [List.filter_append, h]
  rw [List.filter_cons_of_pos (by simp)]
  rfl

/-! ## C1: addEdge merge semantics -/

/-- C1 counterexample: the claim quantifies over *every* graph state, but
on a state that already holds an `(A, B)` edge with symbol `z`, the three
calls leave symbols `[z, x, y]`, not the deduplicated union of `x` and
`y` alone. -/
theorem addEdge_merge_counterexample :
    ((addEdge (addEdge (addEdge (ProjectGraph.mk [] [Edge.mk ("A") ("B") (["z"]) EStat.unchanged])
        ("A") ("B") (["x"]) EStat.unchanged) ("A") ("B") (["y"]) EStat.added)
        ("A") ("B") ([]) EStat.unchanged).edges
      = [Edge.mk ("A") ("B") (["z", "x", "y"]) EStat.added])
    ∧ ¬(((addEdge (addEdge (addEdge (ProjectGraph.mk []
          [Edge.mk ("A") ("B") (["z"]) EStat.unchanged])
        ("A") ("B") (["x"]) EStat.unchanged) ("A") ("B") (["y"]) EStat.added)
        ("A") ("B") ([]) EStat.unchanged).edges.map (fun e => e.symbols)) = [["x", "y"]]) := by
  decide

/-- C1 (amended with the precondition that no `(A, B)` edge is present
yet): the three calls `addEdge A B [x] unchanged`, `addEdge A B [y]
added`, `addEdge A B [] unchanged` leave exactly one `(A, B)` edge, with
the deduplicated union of `x` and `y` as symbols and status `added`; and
in general `addEdge` on an already-present pair unions the symbol lists
without duplicates and overwrites the status only when the new status is
not `unchanged`. -/
theorem addEdge_merge_semantics :
    (∀ (g : ProjectGraph) (A B x y : String),
      g.edges.filter (fun e => e.source == A && e.target == B) = [] →
      ((addEdge (addEdge (addEdge g A B [x] EStat.unchanged) A B [y] EStat.added)
          A B [] EStat.unchanged).edges.filter (fun e => e.source == A && e.target == B))
        = [Edge.mk A B (jsSetDedup [x, y]) EStat.added])
    ∧ (∀ (g : ProjectGraph) (s t : String) (sy : List String) (st : EStat) (e₀ : Edge),
      g.edges.filter (fun e => e.source == s && e.target == t) = [e₀] →
      ((addEdge g s t sy st).edges.filter (fun e => e.source == s && e.target == t))
        = [Edge.mk s t (jsSetDedup (e₀.symbols ++ sy))
            (if st = EStat.unchanged then e₀.gitStatus else st)]) := by
  constructor
  · intro g A B x y h
    have h1 := addEdge_new_filter g A B [x] EStat.unchanged h
    have h2 := addEdge_existing_filter (addEdge g A B [x] EStat.unchanged) A B
      [y] EStat.added _ h1
    have h3 := addEdge_existing_filter _ A B [] EStat.unchanged _ h2
    rw [h3]
    simp [mergeEdge, List.append_nil, jsSetDedup_idem]
  · intro g s t sy st e₀ h
    have hmem : e₀ ∈ g.edges.filter (fun e => e.source == s && e.target == t) := by
      rw [h]; exact List.mem_singleton.mpr rfl
    have hpred := (List.mem_filter.mp hmem).2
    have hst : e₀.source = s ∧ e₀.target = t := by
      simp only [Bool.and_eq_true, beq_iff_eq] at hpred; exact hpred
    rw [addEdge_existing_filter g s t sy st e₀ h]
    simp [mergeEdge, hst.1, hst.2]

theorem addEdge_merge_semantics_witness :
    ((addEdge (addEdge (addEdge emptyGraph ("A") ("B") (["x"]) EStat.unchanged)
        ("A") ("B") (["y"]) EStat.added) ("A") ("B") ([]) EStat.unchanged).edges.filter
      (fun e => e.source == "A" && e.target == "B")
      = [Edge.mk ("A") ("B") (jsSetDedup ["x", "y"]) EStat.added])
    ∧ ((addEdge (ProjectGraph.mk [] [Edge.mk ("A") ("B") (["z"]) EStat.unchanged])
        ("A") ("B") (["w"]) EStat.added).edges.filter
      (fun e => e.source == "A" && e.target == "B")
      = [Edge.mk ("A") ("B") (jsSetDedup (["z"] ++ ["w"]))
          (if EStat.added = EStat.unchanged then EStat.unchanged else EStat.added)]) :=
  ⟨addEdge_merge_semantics.1 emptyGraph ("A") ("B") ("x") ("y") (by decide),
   addEdge_merge_semantics.2 (ProjectGraph.mk [] [Edge.mk ("A") ("B") (["z"]) EStat.unchanged])
     ("A") ("B") (["w"]) EStat.added (Edge.mk ("A") ("B") (["z"]) EStat.unchanged) (by decide)⟩

/-! ## C2: at most one edge per ordered (source, target) pair -/

theorem edgeKeys_addEdge (g : ProjectGraph) (s t : String) (sy : List String) (st : EStat)
    (h : EdgeKeysNodup g) : EdgeKeysNodup (addEdge g s t sy st) := by
  unfold EdgeKeysNodup at h ⊢
  cases hany : g.edges.any (fun e => e.source == s && e.target == t) with
  | true =>
    simp only [addEdge, hany, if_true]
    rw [updateFirstEdge_map_key]
    exact h
  | false =>
    simp only [addEdge, hany, if_false, Bool.false_eq_true, List.map_append, List.map_cons,
      List.map_nil]
    rw [List.nodup_append]
    refine ⟨h, List.nodup_singleton _, List.disjoint_singleton.mpr ?_⟩
    intro hmem
    obtain ⟨e, he, hkey⟩ := List.mem_map.mp hmem
    have hfalse := List.any_eq_false.mp hany e he
    apply hfalse
    have h1 : e.source = s := congrArg Prod.fst hkey
    have h2 : e.target = t := congrArg Prod.snd hkey
    simp [h1, h2]

theorem edgeKeys_applyOp (g : ProjectGraph) (op : GOp) (h : EdgeKeysNodup g) :
    EdgeKeysNodup (applyOp g op) := by
  cases op with
  | addNode p sy loc st =>
    unfold EdgeKeysNodup at h ⊢
    show (((addNode g p sy loc st).edges).map _).Nodup
    rw [addNode_edges]
    exact h
  | addEdge s t sy st => exact edgeKeys_addEdge g s t sy st h
  | removeNode p =>
    unfold EdgeKeysNodup at h ⊢
    show (((removeNode g p).fst.edges).map _).Nodup
    unfold removeNode
    split
    · exact List.Nodup.sublist (List.Sublist.map _ (List.filter_sublist _)) h
    · exact h
  | clear => exact List.nodup_nil

/-- C2: for every finite sequence of addNode, addEdge, removeNode and
clear operations applied to an initially empty graph, the edge list never
holds two edges with the same ordered `(source, target)` pair. -/
theorem edge_key_unique_invariant (ops : List GOp) :
    EdgeKeysNodup (applyOps emptyGraph ops) := by
  unfold applyOps
  exact foldl_pres EdgeKeysNodup applyOp ops
    (fun g op _ h => edgeKeys_applyOp g op h) emptyGraph (by simp [EdgeKeysNodup, emptyGraph])

/-! ## C3: cumulative LOC is one hop only -/

theorem find?_path_self (ns : List FileNode) (n : FileNode) (hmem : n ∈ ns)
    (hnd : (ns.map (fun m => m.path)).Nodup) :
    ns.find? (fun m => m.path == n.path) = some n := by
  induction ns with
  | nil => cases hmem
  | cons m rest ih =>
    rw [List.map_cons, List.nodup_cons] at hnd
    by_cases h : (m.path == n.path) = true
    · rw [@List.find?_cons_of_pos FileNode (fun m => m.path == n.path) m rest h]
      rcases List.mem_cons.mp hmem with rfl | hmem'
      · rfl
      · exfalso
        apply hnd.1
        rw [beq_iff_eq.mp h]
        exact List.mem_map.mpr ⟨n, hmem', rfl⟩
    · rcases List.mem_cons.mp hmem with rfl | hmem'
      · exact absurd (beq_iff_eq.mpr rfl) h
      · rw [@List.find?_cons_of_neg FileNode (fun m => m.path == n.path) m rest h]
        exact ih hmem' hnd.2

theorem getDependencies_addEdge (g : ProjectGraph) (s t p : String) (sy : List String)
    (st : EStat) (hne : s ≠ p) :
    getDependencies (addEdge g s t sy st) p = getDependencies g p := by
  unfold getDependencies
  rw [addEdge_nodes]
  cases hany : g.edges.any (fun e => e.source == s && e.target == t) with
  | true =>
    simp only [addEdge, hany, if_true]
    rw [updateFirstEdge_filter_src s t p sy st hne]
  | false =>
    simp only [addEdge, hany, if_false, Bool.false_eq_true]
    rw [List.filter_append]
    have hsp : ((Edge.mk s t sy st).source == p) = false := beq_eq_false_iff_ne.mpr hne
    rw [List.filter_cons_of_neg (by simp [hsp]), List.filter_nil, List.append_nil]

theorem calculateCumulativeLOC_addEdge (g : ProjectGraph) (s t p : String)
    (sy : List String) (st : EStat) (hne : s ≠ p) :
    calculateCumulativeLOC (addEdge g s t sy st) p = calculateCumulativeLOC g p := by
  unfold calculateCumulativeLOC
  rw [addEdge_nodes, getDependencies_addEdge g s t p sy st hne]

/-- C3: in the snapshot, a cumulative LOC is the node LOC plus one hop of
direct, present dependency targets — no transitive propagation.  Part 1:
at unique paths, the cumulative LOC of a listed node is its own LOC plus
the sum over its direct dependencies.  Part 2: adding an edge with a
different source never changes a node's cumulative LOC.  Part 3: the
concrete A/B/C example of the specification, plus a dangling-target
example (a target missing from the node map contributes nothing). -/
theorem cumulativeLOC_one_hop :
    (∀ (g : ProjectGraph) (n : FileNode), n ∈ g.nodes →
        (g.nodes.map (fun m => m.path)).Nodup →
        calculateCumulativeLOC g n.path
          = n.linesOfCode + ((getDependencies g n.path).map (fun m => m.linesOfCode)).sum)
    ∧ (∀ (g : ProjectGraph) (s t p : String) (sy : List String) (st : EStat), s ≠ p →
        calculateCumulativeLOC (addEdge g s t sy st) p = calculateCumulativeLOC g p)
    ∧ ((getGraphData exampleGraphABC).nodes.map (fun d => (d.path, d.cumulativeLOC))
          = [("A", 100), ("B", 30), ("C", 20)]
        ∧ (getGraphData (addEdge exampleGraphABC ("B") ("C") ([]) EStat.unchanged)).nodes.map
            (fun d => (d.path, d.cumulativeLOC)) = [("A", 100), ("B", 50), ("C", 20)]
        ∧ calculateCumulativeLOC exampleGraphDangling ("A") = 50) := by
  refine ⟨?_, ?_, by decide, by decide, by decide⟩
  · intro g n hmem hnd
    unfold calculateCumulativeLOC
    rw [find?_path_self g.nodes n hmem hnd]
  · intro g s t p sy st hne
    exact calculateCumulativeLOC_addEdge g s t p sy st hne

theorem cumulativeLOC_one_hop_witness :
    (calculateCumulativeLOC exampleGraphABC (FileNode.make ("A") [] 50 GitStat.unchanged).path
        = (FileNode.make ("A") [] 50 GitStat.unchanged).linesOfCode
          + ((getDependencies exampleGraphABC
              (FileNode.make ("A") [] 50 GitStat.unchanged).path).map
              (fun m => m.linesOfCode)).sum)
    ∧ calculateCumulativeLOC (addEdge exampleGraphABC ("B") ("C") ([]) EStat.unchanged) ("A")
        = calculateCumulativeLOC exampleGraphABC ("A") :=
  ⟨cumulativeLOC_one_hop.1 exampleGraphABC (FileNode.make ("A") [] 50 GitStat.unchanged)
      (by decide) (by decide),
   cumulativeLOC_one_hop.2.1 exampleGraphABC ("B") ("C") ("A") ([]) EStat.unchanged
      (by decide)⟩

/-! ## C4: rebuilding is idempotent and state-independent -/

/-- C4: `_buildGraph` starts with `clear()`, so building twice from the
same per-file inputs equals building once, and the snapshot produced does
not depend on the prior graph state at all. -/
theorem rebuild_idempotent_deterministic :
    ∀ (g g2 : ProjectGraph) (files : List FileData),
      buildGraph (buildGraph g files) files = buildGraph g files
        ∧ getGraphData (buildGraph g files) = getGraphData (buildGraph g2 files) :=
  fun _ _ _ => ⟨rfl, rfl⟩

/-! ## C7: edge status is `added` exactly for added source files -/

theorem edges_foldl_addNodeStep :
    ∀ (fds : List FileData) (g : ProjectGraph), (fds.foldl addNodeStep g).edges = g.edges := by
  intro fds
  induction fds with
  | nil => intro g; rfl
  | cons f fs ih =>
    intro g
    rw [List.foldl_cons, ih]
    exact addNode_edges g f.path f.symbols f.linesOfCode f.gitStatus

theorem nodes_foldl_addDepStep (p : String) (st : EStat) :
    ∀ (ds : List Dependency) (g : ProjectGraph),
      (ds.foldl (addDepStep p st) g).nodes = g.nodes := by
  intro ds
  induction ds with
  | nil => intro g; rfl
  | cons d ds ih =>
    intro g
    rw [List.foldl_cons, ih]
    exact addEdge_nodes g p d.importedFrom d.symbols st

theorem nodes_foldl_addEdgesStep :
    ∀ (fds : List FileData) (g : ProjectGraph), (fds.foldl addEdgesStep g).nodes = g.nodes := by
  intro fds
  induction fds with
  | nil => intro g; rfl
  | cons f fs ih =>
    intro g
    rw [List.foldl_cons, ih]
    exact nodes_foldl_addDepStep f.path (edgeStatusFor f.gitStatus) f.dependencies g

theorem addEdge_preserves_status (files : List FileData)
    (hnd : (files.map (fun f => f.path)).Nodup) (f₀ : FileData) (hf₀ : f₀ ∈ files)
    (t : String) (sy : List String) (g : ProjectGraph)
    (hg : ∀ e ∈ g.edges, ∀ f ∈ files, f.path = e.source →
      e.gitStatus = edgeStatusFor f.gitStatus) :
    ∀ e ∈ (addEdge g f₀.path t sy (edgeStatusFor f₀.gitStatus)).edges, ∀ f ∈ files,
      f.path = e.source → e.gitStatus = edgeStatusFor f.gitStatus := by
  intro e he f hf hfe
  cases hany : g.edges.any (fun x => x.source == f₀.path && x.target == t) with
  | false =>
    simp only [addEdge, hany, Bool.false_eq_true, if_false] at he
    rcases List.mem_append.mp he with he' | he''
    · exact hg e he' f hf hfe
    · rw [List.mem_singleton.mp he''] at hfe ⊢
      have hff : f = f₀ := List.inj_on_of_nodup_map hnd hf hf₀ hfe
      rw [hff]
  | true =>
    simp only [addEdge, hany, if_true] at he
    rcases mem_updateFirstEdge f₀.path t sy (edgeStatusFor f₀.gitStatus) g.edges e he with
      he' | ⟨e₀, he₀, hke, hxe⟩
    · exact hg e he' f hf hfe
    · have hsrc : e₀.source = f₀.path := by
        have hh := hke
        simp only [Bool.and_eq_true, beq_iff_eq] at hh
        exact hh.1
      have hstat : e₀.gitStatus = edgeStatusFor f₀.gitStatus := hg e₀ he₀ f₀ hf₀ hsrc.symm
      have hesrc : e.source = f₀.path := by rw [hxe, mergeEdge_source, hsrc]
      have hff : f = f₀ := List.inj_on_of_nodup_map hnd hf hf₀ (hfe.trans hesrc)
      rw [hff, hxe]
      simp only [mergeEdge]
      split
      · exact hstat
      · rfl

theorem edge_status_invariant (files : List FileData)
    (hnd : (files.map (fun f => f.path)).Nodup) (g : ProjectGraph) :
    ∀ e ∈ (buildGraph g files).edges, ∀ f ∈ files, f.path = e.source →
      e.gitStatus = edgeStatusFor f.gitStatus := by
  unfold buildGraph
  have base : ∀ e ∈ (files.foldl addNodeStep (clearGraph g)).edges, ∀ f ∈ files,
      f.path = e.source → e.gitStatus = edgeStatusFor f.gitStatus := by
    rw [edges_foldl_addNodeStep]
    intro e he
    cases he
  refine foldl_pres
    (fun gr => ∀ e ∈ gr.edges, ∀ f ∈ files, f.path = e.source →
      e.gitStatus = edgeStatusFor f.gitStatus)
    addEdgesStep files ?_ _ base
  intro gr f₀ hf₀ hg
  show ∀ e ∈ (f₀.dependencies.foldl
      (addDepStep f₀.path (edgeStatusFor f₀.gitStatus)) gr).edges, _
  refine foldl_pres
    (fun gr => ∀ e ∈ gr.edges, ∀ f ∈ files, f.path = e.source →
      e.gitStatus = edgeStatusFor f.gitStatus)
    (addDepStep f₀.path (edgeStatusFor f₀.gitStatus)) f₀.dependencies ?_ gr hg
  intro gr2 d _ hg2
  exact addEdge_preserves_status files hnd f₀ hf₀ d.importedFrom d.symbols gr2 hg2

/-- C7: in a built graph over files with distinct paths, an edge ends the
pass with status `added` exactly when its source file is `added`; a
`modified`, `removed` or `unchanged` source yields status `unchanged`. -/
theorem edge_status_added_iff_source_added (g : ProjectGraph) (files : List FileData)
    (hnd : (files.map (fun f => f.path)).Nodup) :
    ∀ e ∈ (buildGraph g files).edges, ∀ f ∈ files, f.path = e.source →
      ((e.gitStatus = EStat.added ↔ f.gitStatus = GitStat.added)
        ∧ (f.gitStatus ≠ GitStat.added → e.gitStatus = EStat.unchanged)) := by
  intro e he f hf hfe
  have h := edge_status_invariant files hnd g e he f hf hfe
  cases hfs : f.gitStatus <;> rw [hfs] at h <;> simp [edgeStatusFor] at h <;> simp [h, hfs]

theorem edge_status_added_iff_source_added_witness :
    ((Edge.mk ("a.ts") ("b.ts") (["x"]) EStat.added).gitStatus = EStat.added
        ↔ (FileData.mk ("a.ts") [] [Dependency.mk ("b.ts") (["x"])] 10
            GitStat.added).gitStatus = GitStat.added)
    ∧ (Edge.mk ("b.ts") ("a.ts") (["y"]) EStat.unchanged).gitStatus = EStat.unchanged :=
  ⟨(edge_status_added_iff_source_added emptyGraph exampleBuildFiles (by decide)
      (Edge.mk ("a.ts") ("b.ts") (["x"]) EStat.added) (by decide)
      (FileData.mk ("a.ts") [] [Dependency.mk ("b.ts") (["x"])] 10 GitStat.added)
      (by decide) rfl).1,
   (edge_status_added_iff_source_added emptyGraph exampleBuildFiles (by decide)
      (Edge.mk ("b.ts") ("a.ts") (["y"]) EStat.unchanged) (by decide)
      (FileData.mk ("b.ts") [] [Dependency.mk ("a.ts") (["y"])] 5 GitStat.modified)
      (by decide) rfl).2 (by decide)⟩

/-! ## C8: synthesis of removed files -/

theorem updateSymbols_path (n : FileNode) (sy : List Symbol) (loc : Nat) (st : GitStat) :
    (updateSymbols n sy loc st).path = n.path := rfl

theorem mapped_filter_nil (files : List FileRaw) (gc : GitChanges) (p : String)
    (hp : p ∉ files.map (fun f => f.path)) :
    ((files.map (fun f => FileData.mk f.path f.symbols f.dependencies f.linesOfCode
        (getFileGitStatus f.path gc))).filter (fun f => f.path == p)) = [] := by
  induction files with
  | nil => rfl
  | cons f fs ih =>
    simp only [List.map_cons, List.mem_cons, not_or] at hp
    rw [List.map_cons, List.filter_cons_of_neg (by
      simp only [beq_iff_eq]
      exact fun hh => hp.1 hh.symm)]
    exact ih hp.2

theorem synthFold_filter_stable (p : String) :
    ∀ (l : List String) (acc : List FileData), acc.any (fun f => f.path == p) = true →
      (l.foldl synthStep acc).filter (fun f => f.path == p)
        = acc.filter (fun f => f.path == p) := by
  intro l
  induction l with
  | nil => intro acc _; rfl
  | cons r rs ih =>
    intro acc hacc
    rw [List.foldl_cons]
    cases hr : acc.any (fun f => f.path == r) with
    | true =>
      rw [show synthStep acc r = acc from by simp [synthStep, hr]]
      exact ih acc hacc
    | false =>
      have hrp : r ≠ p := by
        intro hh
        subst hh
        rw [hr] at hacc
        cases hacc
      have hstep : synthStep acc r = acc ++ [FileData.mk r [] [] 0 GitStat.removed] := by
        simp [synthStep, hr]
      rw [hstep]
      have hacc' : (acc ++ [FileData.mk r [] [] 0 GitStat.removed]).any
          (fun f => f.path == p) = true := by
        simp [List.any_append, hacc]
      rw [ih _ hacc', List.filter_append]
      rw [List.filter_cons_of_neg (by
        simp only [beq_iff_eq]
        exact fun hh => hrp hh)]
      rw [List.filter_nil, List.append_nil]

theorem synthFold_filter_of_mem (p : String) :
    ∀ (l : List String) (acc : List FileData),
      acc.filter (fun f => f.path == p) = [] → p ∈ l →
      (l.foldl synthStep acc).filter (fun f => f.path == p)
        = [FileData.mk p [] [] 0 GitStat.removed] := by
  intro l
  induction l with
  | nil => intro acc _ hp; cases hp
  | cons r rs ih =>
    intro acc hacc hp
    rw [List.foldl_cons]
    by_cases hrp : r = p
    · subst hrp
      have hany : acc.any (fun f => f.path == r) = false :=
        (filter_nil_iff_any_false _ _).mp hacc
      have hstep : synthStep acc r = acc ++ [FileData.mk r [] [] 0 GitStat.removed] := by
        simp [synthStep, hany]
      rw [hstep]
      have hacc' : (acc ++ [FileData.mk r [] [] 0 GitStat.removed]).any
          (fun f => f.path == r) = true := by
        simp [List.any_append]
      rw [synthFold_filter_stable r rs _ hacc', List.filter_append, hacc]
      rw [List.filter_cons_of_pos (by simp)]
      rfl
    · have hacc' : (synthStep acc r).filter (fun f => f.path == p) = [] := by
        unfold synthStep
        split
        · exact hacc
        · rw [List.filter_append, hacc]
          rw [List.filter_cons_of_neg (by
            simp only [beq_iff_eq]
            exact fun hh => hrp hh)]
          rfl
      refine ih _ hacc' ?_
      rcases List.mem_cons.mp hp with h | h
      · exact absurd h.symm hrp
      · exact h

theorem filter_map_update_ne (q p : String) (hne : (q == p) = false) (sy : List Symbol)
    (loc : Nat) (st : GitStat) :
    ∀ ns : List FileNode,
      (ns.map (fun n => if n.path == q then updateSymbols n sy loc st else n)).filter
        (fun n => n.path == p)
      = ns.filter (fun n => n.path == p) := by
  intro ns
  induction ns with
  | nil => rfl
  | cons n rest ih =>
    rw [List.map_cons]
    by_cases hq : (n.path == q) = true
    · have hp : (n.path == p) = false := by
        rw [beq_iff_eq.mp hq]
        exact hne
      rw [if_pos hq, List.filter_cons, List.filter_cons, updateSymbols_path, hp]
      simp only [Bool.false_eq_true, if_false]
      exact ih
    · rw [if_neg hq, List.filter_cons, List.filter_cons, ih]

theorem addNode_filter_path_ne (g : ProjectGraph) (q : String) (sy : List Symbol)
    (loc : Nat) (st : GitStat) (p : String) (hne : (q == p) = false) :
    (addNode g q sy loc st).nodes.filter (fun n => n.path == p)
      = g.nodes.filter (fun n => n.path == p) := by
  unfold addNode
  split
  · exact filter_map_update_ne q p hne sy loc st g.nodes
  · show (g.nodes ++ [FileNode.make q sy loc st]).filter (fun n => n.path == p) = _
    rw [List.filter_append]
    rw [List.filter_cons_of_neg (by
      simp only [FileNode.make, beq_iff_eq]
      simp only [beq_eq_false_iff_ne] at hne
      exact hne)]
    rw [List.filter_nil, List.append_nil]

theorem nodesFold_filter_stable (p : String) :
    ∀ (fds : List FileData) (g : ProjectGraph),
      fds.filter (fun f => f.path == p) = [] →
      (fds.foldl addNodeStep g).nodes.filter (fun n => n.path == p)
        = g.nodes.filter (fun n => n.path == p) := by
  intro fds
  induction fds with
  | nil => intro g _; rfl
  | cons f fs ih =>
    intro g hfil
    have hcond : (f.path == p) = false := by
      cases hc : (f.path == p) with
      | false => rfl
      | true =>
        rw [List.filter_cons_of_pos (by exact hc)] at hfil
        cases hfil
    have hrest : fs.filter (fun f => f.path == p) = [] := by
      rw [List.filter_cons_of_neg (by simp [hcond])] at hfil
      exact hfil
    rw [List.foldl_cons, ih _ hrest]
    exact addNode_filter_path_ne g f.path f.symbols f.linesOfCode f.gitStatus p hcond

theorem nodesFold_filter_unique (p : String) :
    ∀ (fds : List FileData) (g : ProjectGraph) (x : FileData),
      g.nodes.filter (fun n => n.path == p) = [] →
      fds.filter (fun f => f.path == p) = [x] →
      (fds.foldl addNodeStep g).nodes.filter (fun n => n.path == p)
        = [FileNode.make x.path x.symbols x.linesOfCode x.gitStatus] := by
  intro fds
  induction fds with
  | nil => intro g x _ hx; cases hx
  | cons f fs ih =>
    intro g x hg hx
    cases hf : (f.path == p) with
    | true =>
      rw [List.filter_cons_of_pos (by exact hf)] at hx
      obtain ⟨rfl, hrest⟩ := List.cons_eq_cons.mp hx
      have hany : g.nodes.any (fun n => n.path == f.path) = false := by
        rw [beq_iff_eq.mp hf]
        exact (filter_nil_iff_any_false _ _).mp hg
      rw [List.foldl_cons]
      have hstep : addNodeStep g f = { g with
          nodes := g.nodes ++ [FileNode.make f.path f.symbols f.linesOfCode f.gitStatus] } := by
        unfold addNodeStep addNode
        rw [if_neg (by simp [hany])]
      rw [hstep, nodesFold_filter_stable p fs _ hrest]
      show (g.nodes ++ [FileNode.make f.path f.symbols f.linesOfCode f.gitStatus]).filter
          (fun n => n.path == p) = _
      rw [List.filter_append, hg, List.nil_append]
      rw [List.filter_cons_of_pos (by exact hf)]
      rfl
    | false =>
      rw [List.filter_cons_of_neg (by simp [hf])] at hx
      rw [List.foldl_cons]
      have hg' : (addNodeStep g f).nodes.filter (fun n => n.path == p) = [] := by
        rw [show (addNodeStep g f).nodes.filter (fun n => n.path == p)
              = g.nodes.filter (fun n => n.path == p) from
            addNode_filter_path_ne g f.path f.symbols f.linesOfCode f.gitStatus p hf]
        exact hg
      exact ih _ x hg' hx

theorem addEdge_no_source (g : ProjectGraph) (q t : String) (sy : List String) (st : EStat)
    (p : String) (hq : q ≠ p) (hg : ∀ e ∈ g.edges, e.source ≠ p) :
    ∀ e ∈ (addEdge g q t sy st).edges, e.source ≠ p := by
  intro e he
  cases hany : g.edges.any (fun x => x.source == q && x.target == t) with
  | false =>
    simp only [addEdge, hany, Bool.false_eq_true, if_false] at he
    rcases List.mem_append.mp he with he' | he''
    · exact hg e he'
    · rw [List.mem_singleton.mp he'']
      exact hq
  | true =>
    simp only [addEdge, hany, if_true] at he
    rcases mem_updateFirstEdge q t sy st g.edges e he with he' | ⟨e₀, he₀, _, rfl⟩
    · exact hg e he'
    · rw [mergeEdge_source]
      exact hg e₀ he₀

theorem depsFold_no_source (q : String) (st : EStat) (p : String) (hq : q ≠ p) :
    ∀ (ds : List Dependency) (g : ProjectGraph),
      (∀ e ∈ g.edges, e.source ≠ p) →
      ∀ e ∈ (ds.foldl (addDepStep q st) g).edges, e.source ≠ p := by
  intro ds
  induction ds with
  | nil => intro g hg; exact hg
  | cons d rest ih =>
    intro g hg
    rw [List.foldl_cons]
    exact ih _ (addEdge_no_source g q d.importedFrom d.symbols st p hq hg)

theorem edgesFold_no_source (p : String) :
    ∀ (fds : List FileData) (g : ProjectGraph),
      (∀ e ∈ g.edges, e.source ≠ p) →
      (∀ f ∈ fds, f.path = p → f.dependencies = []) →
      ∀ e ∈ (fds.foldl addEdgesStep g).edges, e.source ≠ p := by
  intro fds
  induction fds with
  | nil => intro g hg _; exact hg
  | cons f fs ih =>
    intro g hg hdeps
    rw [List.foldl_cons]
    refine ih _ ?_ (fun f' hf' => hdeps f' (List.mem_cons_of_mem _ hf'))
    by_cases hfp : f.path = p
    · have hdep0 : f.dependencies = [] := hdeps f (List.mem_cons_self _ _) hfp
      show ∀ e ∈ (addEdgesStep g f).edges, e.source ≠ p
      unfold addEdgesStep
      rw [hdep0]
      exact hg
    · exact depsFold_no_source f.path (edgeStatusFor f.gitStatus) p hfp f.dependencies g hg

/-- C8: a path in the removed change set but absent from the current
listing produces exactly one synthesized file entry (empty symbols and
dependencies, zero LOC, status `removed`), hence exactly one node with
those fields in the built graph, and that node is the source of no
edge. -/
theorem removed_file_synthesis (files : List FileRaw) (gitChanges : GitChanges)
    (g0 : ProjectGraph) (p : String)
    (hmem : p ∈ gitChanges.removedFiles)
    (habsent : p ∉ files.map (fun f => f.path)) :
    ((getFilesWithDependenciesAndGitStatus files gitChanges).filter (fun f => f.path == p)
        = [FileData.mk p [] [] 0 GitStat.removed])
    ∧ ((buildGraph g0 (getFilesWithDependenciesAndGitStatus files gitChanges)).nodes.filter
          (fun n => n.path == p)
        = [FileNode.make p [] 0 GitStat.removed])
    ∧ (∀ e ∈ (buildGraph g0 (getFilesWithDependenciesAndGitStatus files gitChanges)).edges,
        e.source ≠ p) := by
  have hbase := mapped_filter_nil files gitChanges p habsent
  have h1 : (getFilesWithDependenciesAndGitStatus files gitChanges).filter
      (fun f => f.path == p) = [FileData.mk p [] [] 0 GitStat.removed] := by
    unfold getFilesWithDependenciesAndGitStatus
    exact synthFold_filter_of_mem p gitChanges.removedFiles _ hbase hmem
  refine ⟨h1, ?_, ?_⟩
  · unfold buildGraph
    rw [nodes_foldl_addEdgesStep]
    exact nodesFold_filter_unique p (getFilesWithDependenciesAndGitStatus files gitChanges)
      (clearGraph g0) (FileData.mk p [] [] 0 GitStat.removed) rfl h1
  · unfold buildGraph
    refine edgesFold_no_source p _ _ ?_ ?_
    · rw [edges_foldl_addNodeStep]
      intro e he
      cases he
    · intro f hf hfp
      have hmemf : f ∈ (getFilesWithDependenciesAndGitStatus files gitChanges).filter
          (fun ff => ff.path == p) :=
        List.mem_filter.mpr ⟨hf, by rw [hfp]; exact beq_iff_eq.mpr rfl⟩
      rw [h1] at hmemf
      rw [List.mem_singleton.mp hmemf]

theorem removed_file_synthesis_witness :
    ((getFilesWithDependenciesAndGitStatus exampleRawFiles exampleGitChanges).filter
        (fun f => f.path == "old.ts") = [FileData.mk ("old.ts") [] [] 0 GitStat.removed])
    ∧ ((buildGraph emptyGraph
          (getFilesWithDependenciesAndGitStatus exampleRawFiles exampleGitChanges)).nodes.filter
        (fun n => n.path == "old.ts") = [FileNode.make ("old.ts") [] 0 GitStat.removed]) :=
  ⟨(removed_file_synthesis exampleRawFiles exampleGitChanges emptyGraph ("old.ts")
      (by decide) (by decide)).1,
   (removed_file_synthesis exampleRawFiles exampleGitChanges emptyGraph ("old.ts")
      (by decide) (by decide)).2.1⟩

/-! ## C5: non-relative specifiers are rejected everywhere -/

/-- C5: `resolveImportPath` returns `none` for every specifier that does
not begin with `./` or `../`, and the extraction filter (`keepRelative`)
drops every raw match with such a specifier, so extraction output is
computed from the relative-specifier matches alone — independently of
what exists in the workspace (the resolver never checks existence). -/
theorem nonrelative_specifiers_rejected :
    (∀ (root currentFilePath importPath : String),
      strStartsWith importPath ("./") = false → strStartsWith importPath ("../") = false →
      resolveImportPath root currentFilePath importPath = none)
    ∧ (∀ (root currentFilePath : String) (m : String × List String),
      strStartsWith m.fst ("./") = false → strStartsWith m.fst ("../") = false →
      keepRelative root currentFilePath m = none)
    ∧ (∀ (root currentFilePath : String) (l : List (String × List String)),
      l.filterMap (keepRelative root currentFilePath)
        = (l.filter (fun m => strStartsWith m.fst ("./")
            || strStartsWith m.fst ("../"))).filterMap (keepRelative root currentFilePath)) := by
  have hkeep : ∀ (root currentFilePath : String) (m : String × List String),
      strStartsWith m.fst ("./") = false → strStartsWith m.fst ("../") = false →
      keepRelative root currentFilePath m = none := by
    intro root cur m h1 h2
    simp [keepRelative, h1, h2]
  refine ⟨?_, hkeep, ?_⟩
  · intro root cur spec h1 h2
    simp [resolveImportPath, resolveRelative, h1, h2]
  · intro root cur l
    induction l with
    | nil => rfl
    | cons m rest ih =>
      cases hc : (strStartsWith m.fst ("./") || strStartsWith m.fst ("../")) with
      | true =>
        rw [List.filter_cons_of_pos (by exact hc)]
        rw [List.filterMap_cons, List.filterMap_cons, ih]
      | false =>
        rw [List.filter_cons_of_neg (by simp [hc])]
        rcases Bool.or_eq_false_iff.mp hc with ⟨h1, h2⟩
        rw [List.filterMap_cons, hkeep root cur m h1 h2]
        exact ih

theorem nonrelative_specifiers_rejected_witness :
    resolveImportPath ("/ws") ("/ws/src/app.ts") ("lodash") = none
    ∧ keepRelative ("/ws") ("/ws/src/app.ts") (("lodash"), ["*"]) = none :=
  ⟨nonrelative_specifiers_rejected.1 ("/ws") ("/ws/src/app.ts") ("lodash")
      (by decide) (by decide),
   nonrelative_specifiers_rejected.2.1 ("/ws") ("/ws/src/app.ts") (("lodash"), ["*"])
      (by decide) (by decide)⟩

/-! ## C6: directory popping and probe order -/

theorem resolveImportPath_eq_body (root currentFilePath importPath resolvedPath : String)
    (h : resolveRelative currentFilePath importPath = some resolvedPath) :
    resolveImportPath root currentFilePath importPath
      = match (extensions.map (fun ext => resolvedPath ++ ext)).findSome?
            (acceptCandidate root) with
        | some r => some r
        | none =>
          match (extensions.map (fun ext => resolvedPath ++ "/index" ++ ext)).findSome?
              (acceptCandidate root) with
          | some r => some r
          | none => acceptCandidate root resolvedPath := by
  unfold resolveImportPath
  rw [h]

/-- C6: on `src/foo/bar.ts` (under workspace root `/ws`) with specifier
`../baz`, one trailing directory component is popped, giving
`/ws/src/baz`, and the resolver returns `src/baz.ts` because the first
extension probe is accepted first; in general the candidates are probed
in the fixed order extension tier, `/index` tier, exact path — first
accepted candidate wins. -/
theorem resolveImportPath_probe_order :
    (resolveRelative ("/ws/src/foo/bar.ts") ("../baz") = some ("/ws/src/baz")
      ∧ resolveImportPath ("/ws") ("/ws/src/foo/bar.ts") ("../baz") = some ("src/baz.ts"))
    ∧ (∀ (root currentFilePath importPath resolvedPath : String),
      resolveRelative currentFilePath importPath = some resolvedPath →
      resolveImportPath root currentFilePath importPath
        = ((extensions.map (fun ext => resolvedPath ++ ext))
            ++ ((extensions.map (fun ext => resolvedPath ++ "/index" ++ ext))
              ++ [resolvedPath])).findSome? (acceptCandidate root)) := by
  constructor
  · exact ⟨by decide, by decide⟩
  · intro root cur spec resolved h
    rw [resolveImportPath_eq_body root cur spec resolved h, findSome?_append_or,
      findSome?_append_or]
    cases (extensions.map (fun ext => resolved ++ ext)).findSome? (acceptCandidate root) with
    | some r => rfl
    | none =>
      cases (extensions.map (fun ext => resolved ++ "/index" ++ ext)).findSome?
          (acceptCandidate root) with
      | some r => rfl
      | none =>
        rw [List.findSome?_cons]
        cases acceptCandidate root resolved with
        | some r => rfl
        | none => rfl

theorem resolveImportPath_probe_order_witness :
    resolveImportPath ("/ws") ("/ws/src/foo/bar.ts") ("../baz")
      = ((extensions.map (fun ext => ("/ws/src/baz") ++ ext))
          ++ ((extensions.map (fun ext => ("/ws/src/baz") ++ "/index" ++ ext))
            ++ [("/ws/src/baz")])).findSome? (acceptCandidate ("/ws")) :=
  resolveImportPath_probe_order.2 ("/ws") ("/ws/src/foo/bar.ts") ("../baz") ("/ws/src/baz")
    (by decide)

/-! ## C10: no existence check, first extension always wins in-workspace -/

/-- C10: the resolver performs no filesystem check: whenever the
concatenated path plus the first extension `.ts` is accepted (maps inside
the workspace root), that candidate is the result — so `./styles.css`
resolves to `<dir>/styles.css.ts`, and the `/index` and extensionless
tiers are unreachable. -/
theorem resolver_no_existence_check :
    (resolveImportPath ("/ws") ("/ws/app/main.ts") ("./styles.css")
        = some ("app/styles.css.ts"))
    ∧ (∀ (root currentFilePath importPath resolvedPath rel : String),
      resolveRelative currentFilePath importPath = some resolvedPath →
      acceptCandidate root (resolvedPath ++ ".ts") = some rel →
      resolveImportPath root currentFilePath importPath = some rel
        ∧ rel = asRelativePath root (resolvedPath ++ ".ts")) := by
  constructor
  · decide
  · intro root cur spec resolved rel h ha
    constructor
    · have hfirst : (extensions.map (fun ext => resolved ++ ext)).findSome?
          (acceptCandidate root) = some rel := by
        rw [show extensions.map (fun ext => resolved ++ ext)
              = (resolved ++ ".ts") :: ([".tsx", ".js", ".jsx", ".mts", ".mjs", ".cts",
                  ".cjs", ".html", ".htm", ".css", ".scss", ".sass", ".less", ".py",
                  ".pyi", ".pyx", ".xml"].map (fun ext => resolved ++ ext)) from rfl]
        rw [List.findSome?_cons, ha]
      rw [resolveImportPath_eq_body root cur spec resolved h, hfirst]
    · simp only [acceptCandidate] at ha
      split at ha
      · injection ha with hh
        exact hh.symm
      · cases ha

theorem resolver_no_existence_check_witness :
    (resolveImportPath ("/ws") ("/ws/app/main.ts") ("./styles.css")
        = some ("app/styles.css.ts"))
    ∧ ("app/styles.css.ts") = asRelativePath ("/ws") (("/ws/app/styles.css") ++ ".ts") :=
  resolver_no_existence_check.2 ("/ws") ("/ws/app/main.ts") ("./styles.css")
    ("/ws/app/styles.css") ("app/styles.css.ts") (by decide) (by decide)

/-! ## C9: extraction of the concrete example contents, non-empty symbols -/

theorem applyKind_symbols_ne_nil :
    ∀ (k : JsKind) (caps : List String) (m : String × List String),
      applyKind k caps = some m → m.snd ≠ [] := by
  intro k caps m h
  unfold applyKind at h
  split at h <;> try (injection h with hh; subst hh)
  all_goals first
    | cases h
    | simp [splitComma_ne_nil]

theorem keepRelative_symbols (root currentFilePath : String) (m : String × List String)
    (d : Dependency) (h : keepRelative root currentFilePath m = some d) :
    d.symbols = m.snd := by
  unfold keepRelative at h
  split at h
  · cases hr : resolveImportPath root currentFilePath m.fst with
    | none => rw [hr] at h; cases h
    | some rp =>
      rw [hr, Option.map_some'] at h
      injection h with hh
      rw [← hh]
  · cases h

theorem jsRaw_symbols_ne_nil (content : List Char) (m : String × List String)
    (hm : m ∈ jsRawImports content) : m.snd ≠ [] := by
  unfold jsRawImports at hm
  obtain ⟨pk, _, hmem2⟩ := List.mem_flatMap.mp hm
  obtain ⟨caps, _, hak⟩ := List.mem_filterMap.mp hmem2
  exact applyKind_symbols_ne_nil pk.snd caps m hak

theorem cssRaw_symbols (content : List Char) (m : String × List String)
    (hm : m ∈ cssRawImports content) : m.snd = ["*"] := by
  unfold cssRawImports at hm
  obtain ⟨pat, _, hmem2⟩ := List.mem_flatMap.mp hm
  obtain ⟨caps, _, hck⟩ := List.mem_filterMap.mp hmem2
  split at hck
  · injection hck with hh
    rw [← hh]
  · cases hck

theorem htmlRaw_symbols (content : List Char) (m : String × List String)
    (hm : m ∈ htmlRawImports content) : m.snd = ["*"] := by
  unfold htmlRawImports at hm
  obtain ⟨pat, _, hmem2⟩ := List.mem_flatMap.mp hm
  obtain ⟨caps, _, hck⟩ := List.mem_filterMap.mp hmem2
  split at hck
  · injection hck with hh
    rw [← hh]
  · cases hck

theorem mem_ite_nil {α : Type} {c : Prop} [Decidable c] {l : List α} {x : α}
    (h : x ∈ (if c then l else [])) : x ∈ l := by
  split at h
  · exact h
  · cases h

/-- C9: a side-effect-only import yields one relationship with the
sentinel `*`; a named import yields the trimmed named list; a mixed
default-plus-named import yields the default followed by the named list
(on the concrete contents of the specification, whose specifiers resolve
under workspace root `/ws`); and every relationship any extraction
returns has a non-empty symbol list. -/
theorem import_extraction_examples :
    (getImportRelationships ("/ws") ("/ws/src/app.ts") exampleContentBare
        = [Dependency.mk ("src/styles.css.ts") (["*"])])
    ∧ (getImportRelationships ("/ws") ("/ws/src/app.ts") exampleContentNamed
        = [Dependency.mk ("x.ts") (["A", "B"])])
    ∧ (getImportRelationships ("/ws") ("/ws/src/app.ts") exampleContentMixed
        = [Dependency.mk ("src/y.ts") (["Foo", "Bar"])])
    ∧ (∀ (root currentFilePath content : String) (d : Dependency),
        d ∈ getImportRelationships root currentFilePath content → d.symbols ≠ []) := by
  refine ⟨by decide, by decide, by decide, ?_⟩
  intro root cur content d hd
  simp only [getImportRelationships] at hd
  rcases List.mem_append.mp hd with h12 | h3
  · rcases List.mem_append.mp h12 with h1 | h2
    · obtain ⟨m, hm, hkm⟩ := List.mem_filterMap.mp (mem_ite_nil h1)
      rw [keepRelative_symbols root cur m d hkm]
      exact jsRaw_symbols_ne_nil _ m hm
    · obtain ⟨m, hm, hkm⟩ := List.mem_filterMap.mp (mem_ite_nil h2)
      rw [keepRelative_symbols root cur m d hkm, cssRaw_symbols _ m hm]
      simp
  · obtain ⟨m, hm, hkm⟩ := List.mem_filterMap.mp (mem_ite_nil h3)
    rw [keepRelative_symbols root cur m d hkm, htmlRaw_symbols _ m hm]
    simp

theorem import_extraction_examples_witness :
    (Dependency.mk ("src/styles.css.ts") (["*"])).symbols ≠ [] :=
  import_extraction_examples.2.2.2 ("/ws") ("/ws/src/app.ts") exampleContentBare
    (Dependency.mk ("src/styles.css.ts") (["*"])) (by decide)
